import Mathlib

/-!
Shallow embedding of the haste clipboard-history core
(`src/core/osp_core/src/{models,db,lib,ffi}.rs`) and proofs about it.

The backing SQLite engine is the spec's declared black box; its relevant
behaviour (row storage, `LIKE` substring matching, the FTS5 join and the
serde JSON round-trip for the `tags` column) is modelled explicitly below,
each model next to the operation that uses it.
-/

/-- Unicode `White_Space` predicate, mirroring Rust's `char::is_whitespace`
(used by `str::split_whitespace` in `NewItem::normalized_text`). -/
def isRustWs (c : Char) : Bool :=
  let n := c.toNat
  (0x09 ≤ n && n ≤ 0x0D) || n == 0x20 || n == 0x85 || n == 0xA0 || n == 0x1680 ||
    (0x2000 ≤ n && n ≤ 0x200A) || n == 0x2028 || n == 0x2029 || n == 0x202F ||
    n == 0x205F || n == 0x3000

/-- Maximal runs of characters satisfying `keep`; the runs of characters
failing `keep` are discarded.  With `keep c = !isRustWs c` this is Rust's
`str::split_whitespace`.  (Structurally recursive so that the kernel can
evaluate it; `splitRuns_cons_keep` below gives the run-at-a-time view.) -/
def splitRuns (keep : Char → Bool) : List Char → List (List Char)
  | [] => []
  | c :: cs =>
    let rest := splitRuns keep cs
    if keep c then
      match cs.head? with
      | some d =>
        if keep d then
          match rest with
          | w :: ws => (c :: w) :: ws
          | [] => [[c]]
        else [c] :: rest
      | none => [[c]]
    else rest

theorem splitRuns_cons_skip {keep : Char → Bool} {c : Char} {cs : List Char}
    (h : keep c = false) : splitRuns keep (c :: cs) = splitRuns keep cs := by
  simp [splitRuns, h]

theorem splitRuns_cons_keep {keep : Char → Bool} :
    ∀ (cs : List Char) (c : Char), keep c = true →
      splitRuns keep (c :: cs) =
        (c :: cs.takeWhile keep) :: splitRuns keep (cs.dropWhile keep)
  | [], c, h => by simp [splitRuns, h]
  | d :: cs', c, h => by
    by_cases hd : keep d = true
    · have ih := splitRuns_cons_keep cs' d hd
      simp only [splitRuns, h, hd, List.head?_cons, if_true]
      rw [List.takeWhile_cons_of_pos hd, List.dropWhile_cons_of_pos hd]
      simp only [splitRuns, hd, List.head?_cons, if_true] at ih
      rw [ih]
    · have hd' : keep d = false := by simpa using hd
      simp only [splitRuns, h, hd', List.head?_cons, if_true, Bool.false_eq_true,
        if_false]
      rw [List.takeWhile_cons_of_neg (by simp [hd']),
        List.dropWhile_cons_of_neg (by simp [hd']), splitRuns_cons_skip hd']

/-- Join word lists with a single space: `Vec::join(" ")`. -/
def joinWords : List (List Char) → List Char
  | [] => []
  | [w] => w
  | w :: ws => w ++ ' ' :: joinWords ws

/-- Rust `str::len`: the UTF-8 byte length of the string. -/
def byteLen (s : String) : Nat :=
  s.data.foldl (fun n c => n + c.utf8Size) 0

/-- ASCII lower-casing of a single character (SQLite `LIKE` folds only ASCII). -/
def asciiLower (c : Char) : Char :=
  if 'A' ≤ c && c ≤ 'Z' then Char.ofNat (c.toNat + 32) else c

/-- One `LIKE`-pattern character against one text character:
`_` matches anything, other characters compare ASCII-case-insensitively.
Model of the black-box SQLite `LIKE` operator's character comparison. -/
def likeCharMatch (p c : Char) : Bool :=
  p == '_' || asciiLower p == asciiLower c

/-- SQLite `LIKE` pattern matching, fuel-indexed (each recursive call
shrinks pattern + text, so `likeMatch` below supplies sufficient fuel). -/
def likeMatchF : Nat → List Char → List Char → Bool
  | 0, _, _ => false
  | _ + 1, [], cs => cs.isEmpty
  | fuel + 1, '%' :: ps, [] => likeMatchF fuel ps []
  | fuel + 1, '%' :: ps, c :: cs =>
    likeMatchF fuel ps (c :: cs) || likeMatchF fuel ('%' :: ps) cs
  | _ + 1, _ :: _, [] => false
  | fuel + 1, p :: ps, c :: cs => likeCharMatch p c && likeMatchF fuel ps cs

/-- SQLite `LIKE` pattern matching (model of the black-box engine):
`%` matches any sequence, `_` any single character, other characters
ASCII-case-insensitively. -/
def likeMatch (ps cs : List Char) : Bool :=
  likeMatchF (ps.length + cs.length + 1) ps cs

/-- The pattern built by `Database::search` for short queries:
`format!("%{}%", query)`. -/
def likePattern (q : String) : List Char :=
  '%' :: q.toList ++ ['%']

/-- Token characters of the FTS5 `unicode61` tokenizer, modelled as
ASCII alphanumerics plus all non-ASCII codepoints (model of the black-box
text engine). -/
def ftsKeep (c : Char) : Bool :=
  c.isAlphanum || decide (0x80 ≤ c.toNat)

/-- Tokens of a string under the modelled FTS5 tokenizer (lower-cased). -/
def ftsTokens (s : String) : List (List Char) :=
  (splitRuns ftsKeep s.toList).map (fun w => w.map asciiLower)

/-- Model of FTS5 `MATCH`: every token of the query occurs as a token of
the indexed text (implicit AND of the query terms). -/
def ftsMatch (q text : String) : Bool :=
  let qt := ftsTokens q
  !qt.isEmpty && qt.all (fun t => (ftsTokens text).contains t)

/-- Model of the FTS5 relevance `rank` column: more query-token
occurrences rank better (smaller). -/
def ftsRank (q text : String) : Int :=
  -(Int.ofNat ((ftsTokens text).countP (fun t => (ftsTokens q).contains t)))

/-! ## Data model (`models.rs`) -/

/-- `ItemKind` from `models.rs`. -/
inductive ItemKind
  | Text
  | Rtf
  | Image
  | File
deriving DecidableEq, Repr

/-- `ItemKind::as_str`. -/
def ItemKind.as_str : ItemKind → String
  | .Text => "text"
  | .Rtf => "rtf"
  | .Image => "image"
  | .File => "file"

/-- `ItemKind::from_str` (the `FromStr` impl), as an `Option`. -/
def ItemKind.parse : String → Option ItemKind
  | "text" => some .Text
  | "rtf" => some .Rtf
  | "image" => some .Image
  | "file" => some .File
  | _ => none

/-- `matches!(kind, ItemKind::Text | ItemKind::Rtf)`. -/
def ItemKind.isTextual : ItemKind → Bool
  | .Text => true
  | .Rtf => true
  | _ => false

/-- `NewItem` from `models.rs`. -/
structure NewItem where
  kind : ItemKind
  content_ref : String
  source_app : Option String
  created_at : Int
  tags : List String
deriving DecidableEq, Repr

/-- `NewItem::normalized_text`:
`self.content_ref.split_whitespace().collect::<Vec<_>>().join(" ")`. -/
def NewItem.normalized_text (item : NewItem) : String :=
  ⟨joinWords (splitRuns (fun c => !isRustWs c) item.content_ref.toList)⟩

/-- `Item` from `models.rs`. -/
structure Item where
  id : Int
  kind : ItemKind
  content_ref : String
  source_app : Option String
  created_at : Int
  pinned : Bool
  tags : List String
deriving DecidableEq, Repr

/-! ## Persisted state (the `items` and `items_fts` tables)

The `tags` TEXT column is written by `serde_json::to_string(&item.tags)`
and read back by `serde_json::from_str(&tags_json).unwrap_or_default()`.
We model the column's contents by whether they parse as a JSON list of
strings: `enc ts` stands for the canonical serde encoding of `ts` (which
parses back to `ts`, the serde round-trip guarantee), and `bad s` for any
stored string that does not parse as `Vec<String>`. -/

/-- The persisted `tags` column, partitioned by JSON validity. -/
inductive TagsJson
  | enc (tags : List String)
  | bad (s : String)
deriving DecidableEq, Repr

/-- `serde_json::from_str::<Vec<String>>(..).unwrap_or_default()`. -/
def decodeTags : TagsJson → List String
  | .enc ts => ts
  | .bad _ => []

/-- A row of the `items` table.  The `kind` column stores
`ItemKind::as_str` of a kind (as written by `insert_item`) and is read
back through the inverse `parse`; we carry the kind itself. -/
structure Row where
  id : Int
  kind : ItemKind
  content_ref : String
  source_app : Option String
  created_at : Int
  pinned : Bool
  tags : TagsJson
deriving DecidableEq, Repr

/-- The database state behind the connection: the `items` rows in rowid
order, the `items_fts` index table as (item_id, text) pairs, the
`PRAGMA user_version`, and whether the 0001_init schema objects exist. -/
structure Database where
  user_version : Nat
  schema_ready : Bool
  rows : List Row
  fts : List (Int × String)
deriving DecidableEq, Repr

/-- SQLite rowid assignment for an ordinary table: one more than the
largest existing rowid (`last_insert_rowid` of the fresh insert). -/
def nextRowId (rows : List Row) : Int :=
  rows.foldl (fun m r => max m r.id) 0 + 1

/-- `Database::row_to_item` (also the closure inside `get_item`). -/
def row_to_item (r : Row) : Item :=
  ⟨r.id, r.kind, r.content_ref, r.source_app, r.created_at, r.pinned, decodeTags r.tags⟩

/-- `Database::insert_item`: insert the row (pinned = 0, tags serialized),
and for Text/Rtf also the FTS entry, in one transaction; returns
`last_insert_rowid`. -/
def Database.insert_item (db : Database) (item : NewItem) : Int × Database :=
  let item_id := nextRowId db.rows
  let row : Row :=
    ⟨item_id, item.kind, item.content_ref, item.source_app, item.created_at,
      false, .enc item.tags⟩
  let fts' :=
    if item.kind.isTextual then db.fts ++ [(item_id, item.content_ref)] else db.fts
  (item_id, { db with rows := db.rows ++ [row], fts := fts' })

/-- `Database::get_item`: `SELECT .. FROM items WHERE id = ?1`,
error context "Item not found" when no row matches. -/
def Database.get_item (db : Database) (id : Int) : Except String Item :=
  match db.rows.find? (fun r => r.id == id) with
  | some r => .ok (row_to_item r)
  | none => .error "Item not found"

/-- `Database::delete_item`: delete the FTS entry, then the row, in one
transaction; if no row was deleted the transaction is abandoned
(rolled back, undoing the FTS delete) and "Item not found" is returned. -/
def Database.delete_item (db : Database) (id : Int) : Except String Database :=
  if db.rows.any (fun r => r.id == id) then
    .ok { db with
            rows := db.rows.filter (fun r => !(r.id == id)),
            fts := db.fts.filter (fun e => !(e.1 == id)) }
  else
    .error "Item not found"

/-- `Database::set_pinned`. -/
def Database.set_pinned (db : Database) (id : Int) (pinned : Bool) :
    Except String Database :=
  if db.rows.any (fun r => r.id == id) then
    .ok { db with
            rows := db.rows.map (fun r => if r.id == id then { r with pinned } else r) }
  else
    .error "Item not found"

/-! ## Search (`Database::search`) -/

/-- `ORDER BY created_at DESC` on rows. -/
def createdDesc (a b : Row) : Prop :=
  b.created_at ≤ a.created_at

instance : DecidableRel createdDesc := fun a b =>
  inferInstanceAs (Decidable (b.created_at ≤ a.created_at))

instance : IsTotal Row createdDesc :=
  ⟨fun a b => Int.le_total b.created_at a.created_at⟩

instance : IsTrans Row createdDesc :=
  ⟨fun _ _ _ h h' => le_trans h' h⟩

/-- The short-query branch of `Database::search`:
`WHERE content_ref LIKE '%q%' ORDER BY created_at DESC LIMIT ?2`,
over all kinds. -/
def Database.likeSearch (db : Database) (q : String) (lim : Nat) : List Item :=
  ((List.insertionSort createdDesc
      (db.rows.filter (fun r => likeMatch (likePattern q) r.content_ref.toList))).take
    lim).map row_to_item

/-- `FROM items i INNER JOIN items_fts fts ON fts.item_id = i.id`:
each row paired with each of its FTS entries' text. -/
def ftsJoin (db : Database) : List (Row × String) :=
  db.rows.flatMap (fun r => (db.fts.filter (fun e => e.1 == r.id)).map (fun e => (r, e.2)))

/-- `ORDER BY fts.rank, i.created_at DESC` on joined rows. -/
def ftsOrder (q : String) (a b : Row × String) : Prop :=
  ftsRank q a.2 < ftsRank q b.2 ∨
    (ftsRank q a.2 = ftsRank q b.2 ∧ b.1.created_at ≤ a.1.created_at)

instance (q : String) : DecidableRel (ftsOrder q) := fun a b => by
  unfold ftsOrder; infer_instance

/-- The long-query branch of `Database::search`: the FTS join filtered by
`MATCH`, ordered by rank then recency, truncated. -/
def Database.ftsSearch (db : Database) (q : String) (lim : Nat) : List Item :=
  ((List.insertionSort (ftsOrder q)
      ((ftsJoin db).filter (fun p => ftsMatch q p.2))).take lim).map
    (fun p => row_to_item p.1)

/-- `Database::search`: `if query.len() < 3` (Rust `str::len`, UTF-8
bytes) take the LIKE branch, otherwise the FTS branch. -/
def Database.search (db : Database) (q : String) (lim : Nat) : List Item :=
  if byteLen q < 3 then db.likeSearch q lim else db.ftsSearch q lim

/-! ## Dedup (`Database::has_duplicate`, `update_duplicate_timestamp`,
`Core::dedupe_insert`) -/

/-- `SELECT id FROM items WHERE kind = ?1 AND content_ref = ?2 LIMIT 1`
(first row in scan order). -/
def dedupSelect (db : Database) (kindStr key : String) : Option Int :=
  (db.rows.find? (fun r => r.kind.as_str == kindStr && r.content_ref == key)).map
    (fun r => r.id)

/-- `Database::has_duplicate`: for Text/Rtf compare the candidate's
normalized text against stored `content_ref`; for Image/File compare the
raw `content_ref`. -/
def Database.has_duplicate (db : Database) (item : NewItem) : Bool :=
  if item.kind.isTextual then
    (dedupSelect db item.kind.as_str item.normalized_text).isSome
  else
    (dedupSelect db item.kind.as_str item.content_ref).isSome

/-- `Database::update_duplicate_timestamp`: find the duplicate by the
same query as `has_duplicate`; if found, overwrite its `created_at` and
return its id. -/
def Database.update_duplicate_timestamp (db : Database) (item : NewItem) :
    Option Int × Database :=
  let found :=
    if item.kind.isTextual then dedupSelect db item.kind.as_str item.normalized_text
    else dedupSelect db item.kind.as_str item.content_ref
  match found with
  | some i =>
    (some i,
      { db with
          rows := db.rows.map (fun r =>
            if r.id == i then { r with created_at := item.created_at } else r) })
  | none => (none, db)

/-- `Core::dedupe_insert` (`lib.rs`). -/
def Core.dedupe_insert (db : Database) (item : NewItem) : Option Int × Database :=
  if db.has_duplicate item then
    db.update_duplicate_timestamp item
  else
    let p := db.insert_item item
    (some p.1, p.2)

/-! ## Migrations (`Database::apply_migrations`) -/

/-- Modelled from the spec: the single migration script
`migrations/0001_init.sql` (referenced by `include_str!` but not present
under `src/`) creates the `items` table and the `items_fts` index table;
per spec section 6 it only creates schema objects, so on the state model
it marks the schema as present and touches no data. -/
def apply_0001_init (db : Database) : Database :=
  { db with schema_ready := true }

/-- The fixed ordered migration list
(`[include_str!("../migrations/0001_init.sql")]` with versions 1..). -/
def migrationList : List (Nat × (Database → Database)) :=
  [(1, apply_0001_init)]

/-- `Database::apply_migrations`, instrumented with the list of step
versions whose scripts were actually executed: for each step, if
`user_version < version`, run the script and set `user_version`. -/
def Database.apply_migrations_trace (db : Database) : Database × List Nat :=
  migrationList.foldl
    (fun acc m =>
      if acc.1.user_version < m.1 then
        ({ m.2 acc.1 with user_version := m.1 }, acc.2 ++ [m.1])
      else acc)
    (db, [])

/-- `Database::apply_migrations` (run on every `Database::open`). -/
def Database.apply_migrations (db : Database) : Database :=
  db.apply_migrations_trace.1

/-! ## FFI boundary (`ffi.rs`) -/

/-- A non-null C string crossing the boundary: either valid UTF-8
decoding to `s` (`CStr::to_str` succeeds) or malformed bytes. -/
inductive CStr
  | valid (s : String)
  | malformed
deriving DecidableEq, Repr

/-- The kind-tag match in `core_add_item` / `core_dedupe_insert`. -/
def kindOfInt (k : Int) : Option ItemKind :=
  if k == 0 then some .Text
  else if k == 1 then some .Rtf
  else if k == 2 then some .Image
  else if k == 3 then some .File
  else none

/-- `source_app` handling: NULL becomes None, malformed UTF-8 becomes
None (`to_str().ok()`), valid becomes Some. -/
def decodeSourceApp : Option CStr → Option String
  | none => none
  | some .malformed => none
  | some (.valid s) => some s

/-- `core_add_item`: a null handle, null content, malformed content
UTF-8 or invalid kind tag returns -1 and leaves the state as given;
otherwise inserts with empty tags and returns the new id.
`handle = none` models a null handle pointer. -/
def core_add_item (handle : Option Database) (kind : Int)
    (content_ref : Option CStr) (source_app : Option CStr) (created_at : Int) :
    Int × Option Database :=
  match handle, content_ref with
  | none, _ => (-1, none)
  | some db, none => (-1, some db)
  | some db, some .malformed => (-1, some db)
  | some db, some (.valid c) =>
    match kindOfInt kind with
    | none => (-1, some db)
    | some k =>
      let p := db.insert_item ⟨k, c, decodeSourceApp source_app, created_at, []⟩
      (p.1, some p.2)

/-- `core_dedupe_insert`: same validation as `core_add_item`; on success
maps `Ok(Some(id))` to `id` and `Ok(None)` to the 0 sentinel. -/
def core_dedupe_insert (handle : Option Database) (kind : Int)
    (content_ref : Option CStr) (source_app : Option CStr) (created_at : Int) :
    Int × Option Database :=
  match handle, content_ref with
  | none, _ => (-1, none)
  | some db, none => (-1, some db)
  | some db, some .malformed => (-1, some db)
  | some db, some (.valid c) =>
    match kindOfInt kind with
    | none => (-1, some db)
    | some k =>
      let p := Core.dedupe_insert db ⟨k, c, decodeSourceApp source_app, created_at, []⟩
      match p.1 with
      | some id => (id, some p.2)
      | none => (0, some p.2)

/-! ## Spec-side definitions

These follow the spec's words (for refinement comparison against the
source-derived definitions above). -/

/-- Spec wording: "all runs of whitespace (including newlines) collapsed
to single spaces". -/
def collapseWs : List Char → List Char
  | [] => []
  | c :: cs =>
    if isRustWs c then ' ' :: collapseWs (cs.dropWhile isRustWs)
    else c :: collapseWs cs
termination_by cs => cs.length
decreasing_by
  · exact Nat.lt_succ_of_le (List.dropWhile_sublist isRustWs).length_le
  · exact Nat.lt_succ_self _

/-- Trailing-whitespace trim. -/
def tTrim (cs : List Char) : List Char :=
  (cs.reverse.dropWhile isRustWs).reverse

/-- Spec wording: "leading/trailing whitespace trimmed". -/
def trimWs (cs : List Char) : List Char :=
  tTrim (cs.dropWhile isRustWs)

/-- The spec's *normalized text*: runs of whitespace collapsed to single
spaces, then leading/trailing whitespace trimmed. -/
def specNormalized (s : String) : String :=
  ⟨trimWs (collapseWs s.toList)⟩

/-- The spec's dedup key of a candidate: normalized text for Text/Rtf,
raw `content_ref` for Image/File. -/
def specDedupKey (item : NewItem) : String :=
  if item.kind.isTextual then specNormalized item.content_ref else item.content_ref

/-! ## Helper lemmas: whitespace normalization -/

theorem dropWhile_eq_self_of_all {α : Type} {p : α → Bool} :
    ∀ {l : List α}, (∀ a ∈ l, p a = false) → l.dropWhile p = l
  | [], _ => rfl
  | a :: l, h => by
    have ha : p a = false := h a (List.mem_cons_self a l)
    rw [List.dropWhile_cons_of_neg (by simp [ha])]

theorem dropWhile_head_false {α : Type} {p : α → Bool} {l : List α} {a : α} {t : List α}
    (h : l.dropWhile p = a :: t) : p a = false := by
  have h2 := List.head_dropWhile_not p l (by simp [h])
  simpa [h] using h2

theorem tTrim_nil : tTrim [] = [] := rfl

theorem tTrim_eq_nil_iff {b : List Char} :
    tTrim b = [] ↔ (b.reverse.dropWhile isRustWs).isEmpty = true := by
  unfold tTrim
  simp [List.isEmpty_iff]

theorem tTrim_append_of_nil {a b : List Char} (hb : tTrim b = []) :
    tTrim (a ++ b) = tTrim a := by
  unfold tTrim
  rw [List.reverse_append, List.dropWhile_append, if_pos (tTrim_eq_nil_iff.mp hb)]

theorem tTrim_append_of_ne_nil {a b : List Char} (hb : tTrim b ≠ []) :
    tTrim (a ++ b) = a ++ tTrim b := by
  unfold tTrim
  rw [List.reverse_append, List.dropWhile_append,
    if_neg (by simpa [tTrim_eq_nil_iff] using hb)]
  simp [tTrim]

theorem tTrim_cons_ne_nil {c : Char} {t : List Char} (hc : isRustWs c = false) :
    tTrim (c :: t) ≠ [] := by
  unfold tTrim
  have h1 : (c :: t).reverse = t.reverse ++ [c] := by simp
  rw [h1, List.dropWhile_append]
  split
  · rw [show ([c].dropWhile isRustWs) = [c] from
      List.dropWhile_cons_of_neg (by simp [hc])]
    simp
  · simp

theorem tTrim_all_keep {w : List Char} (hw : ∀ c ∈ w, isRustWs c = false) :
    tTrim w = w := by
  unfold tTrim
  rw [dropWhile_eq_self_of_all (fun a ha => hw a (List.mem_reverse.mp ha))]
  simp

theorem trim_cons_ws {c : Char} {x : List Char} (h : isRustWs c = true) :
    trimWs (c :: x) = trimWs x := by
  unfold trimWs
  rw [List.dropWhile_cons_of_pos h]

theorem trim_cons_keep {c : Char} {x : List Char} (h : isRustWs c = false) :
    trimWs (c :: x) = tTrim (c :: x) := by
  unfold trimWs
  rw [List.dropWhile_cons_of_neg (by simp [h])]

theorem splitRuns_dropWhile_ws :
    ∀ cs : List Char,
      splitRuns (fun c => !isRustWs c) (cs.dropWhile isRustWs) =
        splitRuns (fun c => !isRustWs c) cs
  | [] => rfl
  | c :: cs => by
    by_cases h : isRustWs c
    · rw [List.dropWhile_cons_of_pos h, splitRuns_dropWhile_ws cs,
        splitRuns_cons_skip (by simp [h])]
    · rw [List.dropWhile_cons_of_neg (by simp [h])]

theorem collapse_word :
    ∀ (w rest : List Char), (∀ c ∈ w, isRustWs c = false) →
      collapseWs (w ++ rest) = w ++ collapseWs rest
  | [], _, _ => by simp
  | c :: w, rest, h => by
    have hc : isRustWs c = false := h c (List.mem_cons_self c w)
    have : (c :: w) ++ rest = c :: (w ++ rest) := rfl
    rw [this]
    simp only [collapseWs, hc]
    rw [collapse_word w rest (fun x hx => h x (List.mem_cons_of_mem c hx))]
    simp

theorem collapse_trim_eq_words :
    ∀ cs : List Char,
      trimWs (collapseWs cs) = joinWords (splitRuns (fun c => !isRustWs c) cs)
  | [] => by simp [collapseWs, splitRuns, trimWs, tTrim, joinWords]
  | c :: cs => by
    by_cases h : isRustWs c
    · have hcol : collapseWs (c :: cs) = ' ' :: collapseWs (cs.dropWhile isRustWs) := by
        simp [collapseWs, h]
      have hsp : splitRuns (fun c => !isRustWs c) (c :: cs) =
          splitRuns (fun c => !isRustWs c) cs :=
        splitRuns_cons_skip (by simp [h])
      rw [hcol, trim_cons_ws (by decide), hsp,
        collapse_trim_eq_words (cs.dropWhile isRustWs), splitRuns_dropWhile_ws cs]
    · have hc : isRustWs c = false := by simpa using h
      -- the first word and the remainder
      have hw : ∀ x ∈ c :: cs.takeWhile (fun c => !isRustWs c), isRustWs x = false := by
        intro x hx
        rcases List.mem_cons.mp hx with hx | hx
        · subst hx; exact hc
        · simpa using List.mem_takeWhile_imp hx
      have hsplitcs : c :: cs = (c :: cs.takeWhile (fun c => !isRustWs c)) ++
          cs.dropWhile (fun c => !isRustWs c) := by
        simp [List.takeWhile_append_dropWhile]
      have hsp : splitRuns (fun c => !isRustWs c) (c :: cs) =
          (c :: cs.takeWhile (fun c => !isRustWs c)) ::
            splitRuns (fun c => !isRustWs c) (cs.dropWhile (fun c => !isRustWs c)) :=
        splitRuns_cons_keep cs c (by simp [hc])
      have hcol : collapseWs (c :: cs) =
          (c :: cs.takeWhile (fun c => !isRustWs c)) ++
            collapseWs (cs.dropWhile (fun c => !isRustWs c)) := by
        conv_lhs => rw [hsplitcs]
        exact collapse_word _ _ hw
      rw [hsp, hcol]
      -- name the word and the rest
      generalize hwdef : c :: cs.takeWhile (fun c => !isRustWs c) = w at *
      cases hrest : cs.dropWhile (fun c => !isRustWs c) with
      | nil =>
        have hz : collapseWs ([] : List Char) = [] := by simp [collapseWs]
        have hs0 : splitRuns (fun c => !isRustWs c) ([] : List Char) = [] := by
          simp [splitRuns]
        rw [hz, hs0, List.append_nil]
        have hhead : trimWs w = tTrim w := by
          rw [← hwdef]; exact trim_cons_keep hc
        rw [hhead, tTrim_all_keep hw]
        simp [joinWords]
      | cons d rest' =>
        have hd : isRustWs d = true := by
          have := dropWhile_head_false hrest
          simpa using this
        have hcold : collapseWs (d :: rest') = ' ' :: collapseWs (rest'.dropWhile isRustWs) := by
          simp [collapseWs, hd]
        have hspd : splitRuns (fun c => !isRustWs c) (d :: rest') =
            splitRuns (fun c => !isRustWs c) rest' :=
          splitRuns_cons_skip (by simp [hd])
        rw [hcold, hspd, ← splitRuns_dropWhile_ws rest']
        -- now by cases on whether anything follows the whitespace run
        cases hu : rest'.dropWhile isRustWs with
        | nil =>
          have hs0 : splitRuns (fun c => !isRustWs c) ([] : List Char) = [] := by
            simp [splitRuns]
          have hz : collapseWs ([] : List Char) = [] := by simp [collapseWs]
          rw [hs0, hz]
          have h1 : trimWs (w ++ ' ' :: ([] : List Char)) =
              tTrim (w ++ ' ' :: ([] : List Char)) := by
            rw [← hwdef]; exact trim_cons_keep hc
          rw [h1, show (' ' :: ([] : List Char)) = [' '] from rfl,
            tTrim_append_of_nil (by decide), tTrim_all_keep hw]
          simp [joinWords]
        | cons e u' =>
          have he : isRustWs e = false := by
            have := dropWhile_head_false hu
            exact this
          have hz : collapseWs (e :: u') = e :: collapseWs u' := by
            simp [collapseWs, he]
          have hZne : tTrim (collapseWs (e :: u')) ≠ [] := by
            rw [hz]; exact tTrim_cons_ne_nil he
          have h1 : trimWs (w ++ ' ' :: collapseWs (e :: u')) =
              tTrim (w ++ ' ' :: collapseWs (e :: u')) := by
            rw [← hwdef]; exact trim_cons_keep hc
          have h2 : tTrim (w ++ ' ' :: collapseWs (e :: u')) =
              w ++ tTrim (' ' :: collapseWs (e :: u')) := by
            apply tTrim_append_of_ne_nil
            have : (' ' :: collapseWs (e :: u')) = [' '] ++ collapseWs (e :: u') := rfl
            rw [this, tTrim_append_of_ne_nil hZne]
            simp
          have h3 : tTrim (' ' :: collapseWs (e :: u')) =
              ' ' :: tTrim (collapseWs (e :: u')) := by
            have : (' ' :: collapseWs (e :: u')) = [' '] ++ collapseWs (e :: u') := rfl
            rw [this, tTrim_append_of_ne_nil hZne]
            rfl
          have h4 : tTrim (collapseWs (e :: u')) = trimWs (collapseWs (e :: u')) := by
            rw [hz, trim_cons_keep he]
          have hIH := collapse_trim_eq_words (e :: u')
          have hspu : splitRuns (fun c => !isRustWs c) (e :: u') =
              (e :: u'.takeWhile (fun c => !isRustWs c)) ::
                splitRuns (fun c => !isRustWs c) (u'.dropWhile (fun c => !isRustWs c)) :=
            splitRuns_cons_keep u' e (by simp [he])
          rw [h1, h2, h3, h4, hIH, hspu]
          rfl
termination_by cs => cs.length
decreasing_by
  · exact Nat.lt_succ_of_le (List.dropWhile_sublist isRustWs).length_le
  · -- e :: u' is shorter than c :: cs
    have h5 : (rest'.dropWhile isRustWs).length ≤ rest'.length :=
      (List.dropWhile_sublist isRustWs).length_le
    have h6 : (d :: rest').length ≤ cs.length := by
      rw [← hrest]
      exact (List.dropWhile_sublist _).length_le
    simp only [hu] at h5
    simp only [List.length_cons] at h5 h6 ⊢
    omega

/-- The spec's collapse-and-trim normalization coincides with the code's
`split_whitespace` + `join(" ")` normalization, on every string. -/
theorem specNormalized_eq_normalized (s : String) :
    specNormalized s = (NewItem.mk .Text s none 0 []).normalized_text := by
  unfold specNormalized NewItem.normalized_text
  exact congrArg String.mk (collapse_trim_eq_words s.toList)

/-! ## Helper lemmas: kinds, fresh ids, dedup lookups, search membership -/

theorem as_str_inj {k k' : ItemKind} : k.as_str = k'.as_str ↔ k = k' := by
  cases k <;> cases k' <;> decide

theorem parse_as_str (k : ItemKind) : ItemKind.parse k.as_str = some k := by
  cases k <;> decide

theorem foldl_max_init_le (rows : List Row) :
    ∀ init : Int, init ≤ rows.foldl (fun m r => max m r.id) init := by
  induction rows with
  | nil => intro init; exact le_refl _
  | cons x xs ih =>
    intro init
    exact le_trans (le_max_left init x.id) (ih (max init x.id))

theorem mem_id_le_foldl_max (rows : List Row) :
    ∀ (init : Int) (r : Row), r ∈ rows → r.id ≤ rows.foldl (fun m r => max m r.id) init := by
  induction rows with
  | nil => intro _ r h; cases h
  | cons x xs ih =>
    intro init r h
    rcases List.mem_cons.mp h with h | h
    · subst h
      exact le_trans (le_max_right init r.id) (foldl_max_init_le xs (max init r.id))
    · exact ih (max init x.id) r h

theorem mem_id_lt_nextRowId {rows : List Row} {r : Row} (h : r ∈ rows) :
    r.id < nextRowId rows :=
  Int.lt_add_one_iff.mpr (mem_id_le_foldl_max rows 0 r h)

theorem dedupSelect_isSome_iff {db : Database} {ks key : String} :
    (dedupSelect db ks key).isSome = true ↔
      ∃ r ∈ db.rows, r.kind.as_str = ks ∧ r.content_ref = key := by
  unfold dedupSelect
  have hmap : ∀ o : Option Row, (o.map (fun r => r.id)).isSome = o.isSome := by
    intro o; cases o <;> rfl
  rw [hmap, List.find?_isSome]
  constructor
  · rintro ⟨r, hr, hp⟩
    refine ⟨r, hr, ?_, ?_⟩
    · exact beq_iff_eq.mp (Bool.and_elim_left hp)
    · exact beq_iff_eq.mp (Bool.and_elim_right hp)
  · rintro ⟨r, hr, h1, h2⟩
    exact ⟨r, hr, by simp [h1, h2]⟩

theorem dedupSelect_eq_some {db : Database} {ks key : String} {i : Int}
    (h : dedupSelect db ks key = some i) :
    ∃ r ∈ db.rows, r.id = i ∧ r.kind.as_str = ks ∧ r.content_ref = key := by
  unfold dedupSelect at h
  rcases Option.map_eq_some'.mp h with ⟨r, hfind, hid⟩
  have hmem := List.mem_of_find?_eq_some hfind
  have hp := List.find?_some hfind
  exact ⟨r, hmem, hid, beq_iff_eq.mp (Bool.and_elim_left hp),
    beq_iff_eq.mp (Bool.and_elim_right hp)⟩

/-- The lookup made by `update_duplicate_timestamp` (same query as
`has_duplicate`). -/
def dupLookup (db : Database) (item : NewItem) : Option Int :=
  if item.kind.isTextual then dedupSelect db item.kind.as_str item.normalized_text
  else dedupSelect db item.kind.as_str item.content_ref

theorem has_duplicate_eq_dupLookup (db : Database) (item : NewItem) :
    db.has_duplicate item = (dupLookup db item).isSome := by
  unfold Database.has_duplicate dupLookup
  by_cases h : item.kind.isTextual <;> simp [h]

theorem update_duplicate_timestamp_def (db : Database) (item : NewItem) :
    db.update_duplicate_timestamp item =
      match dupLookup db item with
      | some i =>
        (some i,
          { db with
              rows := db.rows.map (fun r =>
                if r.id == i then { r with created_at := item.created_at } else r) })
      | none => (none, db) := by
  unfold Database.update_duplicate_timestamp dupLookup
  rfl

theorem mem_likeSearch {db : Database} {q : String} {lim : Nat} {it : Item}
    (h : it ∈ db.likeSearch q lim) :
    ∃ r ∈ db.rows, it = row_to_item r ∧
      likeMatch (likePattern q) r.content_ref.toList = true := by
  unfold Database.likeSearch at h
  rcases List.mem_map.mp h with ⟨r, hr, hit⟩
  have hr2 : r ∈ List.insertionSort createdDesc
      (db.rows.filter (fun r => likeMatch (likePattern q) r.content_ref.toList)) :=
    List.mem_of_mem_take hr
  have hr3 := (List.perm_insertionSort createdDesc _).mem_iff.mp hr2
  have hr4 := List.mem_filter.mp hr3
  exact ⟨r, hr4.1, hit.symm, hr4.2⟩

theorem mem_ftsJoin {db : Database} {p : Row × String} (h : p ∈ ftsJoin db) :
    p.1 ∈ db.rows ∧ ∃ e ∈ db.fts, e.1 = p.1.id ∧ e.2 = p.2 := by
  unfold ftsJoin at h
  rcases List.mem_flatMap.mp h with ⟨r, hr, hp⟩
  rcases List.mem_map.mp hp with ⟨e, he, hpe⟩
  have he2 := List.mem_filter.mp he
  cases hpe
  exact ⟨hr, e, he2.1, beq_iff_eq.mp he2.2, rfl⟩

theorem mem_ftsSearch {db : Database} {q : String} {lim : Nat} {it : Item}
    (h : it ∈ db.ftsSearch q lim) :
    ∃ r ∈ db.rows, it = row_to_item r ∧ ∃ e ∈ db.fts, e.1 = r.id := by
  unfold Database.ftsSearch at h
  rcases List.mem_map.mp h with ⟨p, hp, hit⟩
  have hp2 : p ∈ List.insertionSort (ftsOrder q)
      ((ftsJoin db).filter (fun p => ftsMatch q p.2)) :=
    List.mem_of_mem_take hp
  have hp3 := (List.perm_insertionSort (ftsOrder q) _).mem_iff.mp hp2
  have hp4 := List.mem_filter.mp hp3
  rcases mem_ftsJoin hp4.1 with ⟨hr, e, he, hid, _⟩
  exact ⟨p.1, hr, hit.symm, e, he, hid⟩

theorem mem_search {db : Database} {q : String} {lim : Nat} {it : Item}
    (h : it ∈ db.search q lim) : ∃ r ∈ db.rows, it = row_to_item r := by
  unfold Database.search at h
  split at h
  · rcases mem_likeSearch h with ⟨r, hr, hit, _⟩
    exact ⟨r, hr, hit⟩
  · rcases mem_ftsSearch h with ⟨r, hr, hit, _⟩
    exact ⟨r, hr, hit⟩

/-- Whether the persisted tags column parses as a JSON list of strings. -/
def TagsJson.isValid : TagsJson → Bool
  | .enc _ => true
  | .bad _ => false

theorem decode_invalid {t : TagsJson} (h : t.isValid = false) : decodeTags t = [] := by
  cases t with
  | enc ts => simp [TagsJson.isValid] at h
  | bad s => rfl

theorem forall₂_map_self {α : Type} {f : α → α} {R : α → α → Prop}
    (h : ∀ a, R (f a) a) : ∀ l : List α, List.Forall₂ R (l.map f) l
  | [] => .nil
  | a :: l => .cons (h a) (forall₂_map_self h l)

theorem find?_append_of_all_false {α : Type} {p : α → Bool} :
    ∀ {l l' : List α}, (∀ a ∈ l, p a = false) → (l ++ l').find? p = l'.find? p
  | [], _, _ => rfl
  | a :: l, l', h => by
    rw [List.cons_append,
      List.find?_cons_of_neg _ (by simp [h a (List.mem_cons_self a l)]),
      find?_append_of_all_false (fun x hx => h x (List.mem_cons_of_mem a hx))]

/-! ## Sample states for witnesses -/

/-- Two text rows (both containing "se") and one image row. -/
def sampleDb : Database :=
  ⟨1, true,
    [⟨1, .Text, "searchable content old", none, 1000, false, .enc []⟩,
     ⟨2, .Text, "searchable content new", none, 2000, false, .enc []⟩,
     ⟨3, .Image, "/path/to/image.png", none, 1500, false, .enc []⟩],
    [(1, "searchable content old"), (2, "searchable content new")]⟩

/-- A store holding only an image item whose path contains a multibyte
substring; images have no text-index entry. -/
def imgDb : Database :=
  ⟨1, true, [⟨1, .Image, "xééy", none, 1000, false, .enc []⟩], []⟩

/-- A store holding one indexed text row mentioning Rust. -/
def ftsDb : Database :=
  ⟨1, true,
    [⟨1, .Text, "Rust programming language is fast and safe", none, 1000, false, .enc []⟩],
    [(1, "Rust programming language is fast and safe")]⟩

/-- A store holding one text row, pre-normalized content. -/
def dupDb : Database :=
  ⟨1, true, [⟨1, .Text, "hello world", none, 1000, false, .enc []⟩],
    [(1, "hello world")]⟩

/-- A candidate duplicating `dupDb`'s row up to whitespace, with different
tags, source_app and timestamp. -/
def dupItem : NewItem :=
  ⟨.Text, "  hello   world  ", some "different", 2000, ["tag"]⟩

/-- A store holding one deletable text row. -/
def delDb : Database :=
  ⟨1, true, [⟨1, .Text, "delete me", none, 5, false, .enc []⟩], [(1, "delete me")]⟩

/-- A store whose single row has a corrupt (non-JSON) tags column. -/
def badDb : Database :=
  ⟨1, true, [⟨1, .Text, "a", none, 5, false, .bad "oops"⟩], [(1, "a")]⟩

/-! ## Claim theorems -/

/-- Claim C1: the dedup check matches an existing item iff some stored row
has the candidate's kind and its stored `content_ref` (treated as already
normalized) equals the candidate's dedup key — the spec's
collapse-runs-and-trim normalized content for Text/Rtf, the raw
`content_ref` byte-for-byte for Image/File. -/
theorem dedup_match_iff_spec_key (db : Database) (item : NewItem) :
    db.has_duplicate item = true ↔
      ∃ r ∈ db.rows, r.kind = item.kind ∧ r.content_ref = specDedupKey item := by
  rw [has_duplicate_eq_dupLookup]
  unfold dupLookup specDedupKey
  cases ht : item.kind.isTextual with
  | true =>
    rw [if_pos rfl, if_pos rfl, dedupSelect_isSome_iff,
      show specNormalized item.content_ref = item.normalized_text from
        specNormalized_eq_normalized item.content_ref]
    constructor
    · rintro ⟨r, hr, h1, h2⟩; exact ⟨r, hr, as_str_inj.mp h1, h2⟩
    · rintro ⟨r, hr, h1, h2⟩; exact ⟨r, hr, as_str_inj.mpr h1, h2⟩
  | false =>
    rw [if_neg (by simp), if_neg (by simp), dedupSelect_isSome_iff]
    constructor
    · rintro ⟨r, hr, h1, h2⟩; exact ⟨r, hr, as_str_inj.mp h1, h2⟩
    · rintro ⟨r, hr, h1, h2⟩; exact ⟨r, hr, as_str_inj.mpr h1, h2⟩

/-- Claim C3: inserting any new item and getting the returned id yields a
record equal to the inserted item in kind, content_ref, source_app,
created_at and tags, with pinned = false.  (Every `NewItem` value is a
valid item; validity is enforced by the type.) -/
theorem insert_get_round_trip (db : Database) (item : NewItem) :
    (db.insert_item item).2.get_item (db.insert_item item).1 =
      .ok ⟨(db.insert_item item).1, item.kind, item.content_ref, item.source_app,
        item.created_at, false, item.tags⟩ := by
  unfold Database.insert_item Database.get_item
  simp only
  have hfresh : ∀ r ∈ db.rows, (r.id == nextRowId db.rows) = false := by
    intro r hr
    exact beq_eq_false_iff_ne.mpr (Int.ne_of_lt (mem_id_lt_nextRowId hr))
  rw [find?_append_of_all_false hfresh, List.find?_cons_of_pos _ (by simp)]
  rfl

/-- Claim C9: under sequential execution `dedupe_insert` never returns
`Ok(None)`: when `has_duplicate` reports a match,
`update_duplicate_timestamp` performs the same lookup on the same state
and finds a row.  Hence the `Ok(None)` ↦ 0 branch of the FFI
`core_dedupe_insert` is unreachable. -/
theorem dedupe_insert_never_none (db : Database) (item : NewItem) :
    (Core.dedupe_insert db item).1.isSome = true := by
  unfold Core.dedupe_insert
  by_cases h : db.has_duplicate item = true
  · rw [if_pos h, update_duplicate_timestamp_def]
    have hsome := (has_duplicate_eq_dupLookup db item) ▸ h
    cases hl : dupLookup db item with
    | some i => simp
    | none => rw [hl] at hsome; simp at hsome
  · rw [if_neg h]
    simp

/-- Claim C8: `core_add_item` with a null handle, null content pointer,
non-UTF-8 content or an out-of-range kind tag returns the -1 sentinel and
leaves the store unchanged. -/
theorem core_add_item_invalid_args (handle : Option Database) (kind : Int)
    (content_ref source_app : Option CStr) (created_at : Int)
    (h : handle = none ∨ content_ref = none ∨ content_ref = some .malformed ∨
      kindOfInt kind = none) :
    core_add_item handle kind content_ref source_app created_at = (-1, handle) := by
  cases handle with
  | none => rfl
  | some db =>
    cases content_ref with
    | none => rfl
    | some cs =>
      cases cs with
      | malformed => rfl
      | valid c =>
        have hk : kindOfInt kind = none := by
          rcases h with h | h | h | h
          · simp at h
          · simp at h
          · simp at h
          · exact h
        simp [core_add_item, hk]

/-- Witness for C8: a null handle yields -1. -/
theorem core_add_item_invalid_args_witness :
    core_add_item none 0 (some (CStr.valid "x")) none 5 = (-1, none) :=
  core_add_item_invalid_args none 0 (some (.valid "x")) none 5 (Or.inl rfl)

/-- Claim C10: a stored row whose tags column is not a valid JSON list of
strings does not make `get` or `search` fail: `get` returns the item with
tags = [] and every search result decodes such tags to []. -/
theorem bad_tags_defaulted (db : Database) (id : Int) (r : Row)
    (hfind : db.rows.find? (fun x => x.id == id) = some r)
    (hbad : r.tags.isValid = false) :
    db.get_item id = .ok (row_to_item r) ∧ (row_to_item r).tags = [] ∧
      ∀ (q : String) (lim : Nat) (it : Item), it ∈ db.search q lim →
        ∃ r' ∈ db.rows, it = row_to_item r' ∧
          (r'.tags.isValid = false → it.tags = []) := by
  refine ⟨?_, ?_, ?_⟩
  · unfold Database.get_item
    rw [hfind]
  · show decodeTags r.tags = []
    exact decode_invalid hbad
  · intro q lim it hit
    rcases mem_search hit with ⟨r', hr', hite⟩
    refine ⟨r', hr', hite, fun hb => ?_⟩
    rw [hite]
    show decodeTags r'.tags = []
    exact decode_invalid hb

/-- Witness for C10: `get` on the corrupt-tags row succeeds with empty
tags. -/
theorem bad_tags_defaulted_witness :
    badDb.get_item 1 = .ok ⟨1, .Text, "a", none, 5, false, []⟩ :=
  (bad_tags_defaulted badDb 1 ⟨1, .Text, "a", none, 5, false, .bad "oops"⟩
    (by rfl) (by rfl)).1

/-- Claim C4: when the candidate matches, `dedupe_insert` returns the id
of a stored row that really is the matched duplicate (same kind, stored
`content_ref` equal to the candidate's dedup key), rewrites only
`created_at` (to the candidate's), keeps every other field of every row,
keeps the text index, and creates no new row. -/
theorem dedupe_bump_frame (db : Database) (item : NewItem)
    (h : db.has_duplicate item = true) :
    ∃ i db', Core.dedupe_insert db item = (some i, db') ∧
      (∃ r ∈ db.rows, r.id = i ∧ r.kind = item.kind ∧
        r.content_ref = specDedupKey item) ∧
      db'.fts = db.fts ∧
      db'.rows.length = db.rows.length ∧
      List.Forall₂ (fun r' r =>
          r'.id = r.id ∧ r'.kind = r.kind ∧ r'.content_ref = r.content_ref ∧
          r'.source_app = r.source_app ∧ r'.pinned = r.pinned ∧
          r'.tags = r.tags ∧
          r'.created_at = (if r.id = i then item.created_at else r.created_at))
        db'.rows db.rows := by
  have hsome := (has_duplicate_eq_dupLookup db item) ▸ h
  cases hl : dupLookup db item with
  | none => rw [hl] at hsome; simp at hsome
  | some i =>
    have hres : Core.dedupe_insert db item =
        (some i,
          { db with
              rows := db.rows.map (fun r =>
                if r.id == i then { r with created_at := item.created_at } else r) }) := by
      unfold Core.dedupe_insert
      rw [if_pos h, update_duplicate_timestamp_def, hl]
    refine ⟨i, _, hres, ?_, rfl, by simp, ?_⟩
    · have hl' := hl
      unfold dupLookup at hl'
      by_cases ht : item.kind.isTextual = true
      · rw [if_pos ht] at hl'
        rcases dedupSelect_eq_some hl' with ⟨r, hr, hid, hk, hc⟩
        have hkey : specDedupKey item = item.normalized_text := by
          unfold specDedupKey
          rw [if_pos ht]
          exact specNormalized_eq_normalized item.content_ref
        exact ⟨r, hr, hid, as_str_inj.mp hk, by rw [hkey]; exact hc⟩
      · rw [if_neg ht] at hl'
        rcases dedupSelect_eq_some hl' with ⟨r, hr, hid, hk, hc⟩
        have hkey : specDedupKey item = item.content_ref := by
          unfold specDedupKey
          rw [if_neg ht]
        exact ⟨r, hr, hid, as_str_inj.mp hk, by rw [hkey]; exact hc⟩
    · apply forall₂_map_self
      intro r
      by_cases hid : r.id = i
      · simp [hid]
      · simp [hid]

/-- Witness for C4 at `dupDb`/`dupItem` (same normalized text, different
whitespace, tags and source_app). -/
theorem dedupe_bump_frame_witness :
    ∃ i db', Core.dedupe_insert dupDb dupItem = (some i, db') ∧
      (∃ r ∈ dupDb.rows, r.id = i ∧ r.kind = dupItem.kind ∧
        r.content_ref = specDedupKey dupItem) ∧
      db'.fts = dupDb.fts ∧
      db'.rows.length = dupDb.rows.length ∧
      List.Forall₂ (fun r' r =>
          r'.id = r.id ∧ r'.kind = r.kind ∧ r'.content_ref = r.content_ref ∧
          r'.source_app = r.source_app ∧ r'.pinned = r.pinned ∧
          r'.tags = r.tags ∧
          r'.created_at = (if r.id = i then dupItem.created_at else r.created_at))
        db'.rows dupDb.rows :=
  dedupe_bump_frame dupDb dupItem (by decide)

/-- Claim C7: a completed open leaves the schema version current, so a
reopen (also after further inserts) executes no migration script and
returns the state unchanged — preserving all data; opening an
already-current store is likewise a no-op. -/
theorem migration_idempotent (db : Database) :
    1 ≤ db.apply_migrations.user_version ∧
    db.apply_migrations.apply_migrations_trace = (db.apply_migrations, []) ∧
    (1 ≤ db.user_version → db.apply_migrations_trace = (db, [])) ∧
    ∀ item : NewItem,
      (db.apply_migrations.insert_item item).2.apply_migrations_trace =
        ((db.apply_migrations.insert_item item).2, []) := by
  have htrace : ∀ d : Database, d.apply_migrations_trace =
      if d.user_version < 1 then ({ apply_0001_init d with user_version := 1 }, [1])
      else (d, []) := by
    intro d
    unfold Database.apply_migrations_trace migrationList
    simp [List.foldl]
  have hver : 1 ≤ db.apply_migrations.user_version := by
    unfold Database.apply_migrations
    rw [htrace db]
    by_cases h : db.user_version < 1
    · rw [if_pos h]
    · rw [if_neg h]
      simpa using Nat.le_of_not_lt h
  refine ⟨hver, ?_, ?_, ?_⟩
  · rw [htrace, if_neg (by omega)]
  · intro h
    rw [htrace, if_neg (by omega)]
  · intro item
    have hv2 : (db.apply_migrations.insert_item item).2.user_version =
        db.apply_migrations.user_version := rfl
    rw [htrace, if_neg (by omega)]

/-- Witness for C7: an already-current store is reopened untouched. -/
theorem migration_idempotent_witness :
    1 ≤ (Database.mk 7 true [] []).user_version ∧
    (Database.mk 7 true [] []).apply_migrations_trace = (Database.mk 7 true [] [], []) :=
  ⟨by decide, (migration_idempotent (Database.mk 7 true [] [])).2.2.1 (by decide)⟩

/-- Claim C5, counterexample: the claim quantifies over queries shorter
than 3 *characters*, but the code branches on `query.len()` (UTF-8
bytes).  The 2-character query "éé" (4 bytes) matches the image row of
`imgDb` as a substring and the whole match set fits the limit, yet the
code takes the full-text path and returns nothing. -/
theorem short_query_claim_refuted :
    ¬ ∀ (db : Database) (q : String) (lim : Nat), q.length < 3 →
        ∀ r ∈ db.rows, likeMatch (likePattern q) r.content_ref.toList = true →
          (db.rows.filter
              (fun r => likeMatch (likePattern q) r.content_ref.toList)).length ≤ lim →
            row_to_item r ∈ db.search q lim := by
  intro hclaim
  have h := hclaim imgDb "éé" 10 (by decide)
    ⟨1, .Image, "xééy", none, 1000, false, .enc []⟩ (by decide) (by decide) (by decide)
  have hempty : imgDb.search "éé" 10 = [] := by decide
  rw [hempty] at h
  cases h

/-- Claim C5 (amended: the short-query bound is the query's UTF-8 byte
count, Rust `str::len`, not its character count): for a query under 3
bytes, search is the LIKE substring scan over rows of all kinds: at most
`limit` results, ordered by `created_at` descending, every result a
matching stored row, and — when `limit` is large enough — every matching
stored row (of any kind) returned. -/
theorem short_query_like_props (db : Database) (q : String) (lim : Nat)
    (hq : byteLen q < 3) :
    db.search q lim = db.likeSearch q lim ∧
    (db.search q lim).length ≤ lim ∧
    List.Pairwise (fun a b : Item => b.created_at ≤ a.created_at) (db.search q lim) ∧
    (∀ it ∈ db.search q lim, ∃ r ∈ db.rows, it = row_to_item r ∧
      likeMatch (likePattern q) r.content_ref.toList = true) ∧
    ((db.rows.filter (fun r => likeMatch (likePattern q) r.content_ref.toList)).length ≤ lim →
      ∀ r ∈ db.rows, likeMatch (likePattern q) r.content_ref.toList = true →
        row_to_item r ∈ db.search q lim) := by
  have hs : db.search q lim = db.likeSearch q lim := by
    unfold Database.search
    rw [if_pos hq]
  refine ⟨hs, ?_, ?_, ?_, ?_⟩
  · rw [hs]
    unfold Database.likeSearch
    rw [List.length_map, List.length_take]
    exact min_le_left _ _
  · rw [hs]
    unfold Database.likeSearch
    have hsorted : List.Pairwise createdDesc
        (List.insertionSort createdDesc
          (db.rows.filter (fun r => likeMatch (likePattern q) r.content_ref.toList))) :=
      List.sorted_insertionSort createdDesc _
    have htake := hsorted.sublist (List.take_sublist lim _)
    exact List.pairwise_map.mpr (htake.imp (fun h => h))
  · intro it hit
    rw [hs] at hit
    exact mem_likeSearch hit
  · intro hlen r hr hm
    rw [hs]
    unfold Database.likeSearch
    have hrf : r ∈ db.rows.filter (fun r => likeMatch (likePattern q) r.content_ref.toList) :=
      List.mem_filter.mpr ⟨hr, hm⟩
    have hlen2 : (List.insertionSort createdDesc
        (db.rows.filter (fun r => likeMatch (likePattern q) r.content_ref.toList))).length ≤
          lim := by
      rw [(List.perm_insertionSort createdDesc _).length_eq]
      exact hlen
    rw [List.take_of_length_le hlen2]
    exact List.mem_map_of_mem row_to_item
      ((List.perm_insertionSort createdDesc _).mem_iff.mpr hrf)

/-- Witness for C5 on a store with two "se" text rows and an image row. -/
theorem short_query_like_props_witness :
    byteLen "se" < 3 ∧ sampleDb.search "se" 10 = sampleDb.likeSearch "se" 10 :=
  ⟨by decide, (short_query_like_props sampleDb "se" 10 (by decide)).1⟩

/-- Claim C2, counterexample: the strategy switch is NOT decided by the
query's character count.  The 2-character query "éé" (4 UTF-8 bytes)
takes the full-text path: on a store holding only an image item whose
path contains "éé", `search` returns nothing although the substring path
would return the item. -/
theorem search_char_threshold_refuted :
    ¬ ∀ (db : Database) (q : String) (lim : Nat),
        q.length < 3 → db.search q lim = db.likeSearch q lim := by
  intro hclaim
  have h := hclaim imgDb "éé" 10 (by decide)
  have h1 : imgDb.search "éé" 10 = [] := by decide
  have h2 : imgDb.likeSearch "éé" 10 ≠ [] := by decide
  rw [h] at h1
  exact h2 h1

/-- Claim C2 (amended: the threshold is on the query's UTF-8 byte count,
Rust `str::len`, not its character count): under 3 bytes search takes the
substring path; at 3 bytes or more it takes the full-text path, every
result having a text-index entry — and, when every indexed id belongs
only to Text/Rtf rows (as insert guarantees), every result is Text/Rtf. -/
theorem search_byte_threshold (db : Database) (q : String) (lim : Nat) :
    (byteLen q < 3 → db.search q lim = db.likeSearch q lim) ∧
    (3 ≤ byteLen q →
      db.search q lim = db.ftsSearch q lim ∧
      ∀ it ∈ db.search q lim,
        (∃ e ∈ db.fts, e.1 = it.id) ∧
        ((∀ e ∈ db.fts, ∀ r ∈ db.rows, r.id = e.1 → r.kind.isTextual = true) →
          it.kind.isTextual = true)) := by
  constructor
  · intro hq
    unfold Database.search
    rw [if_pos hq]
  · intro hq
    have hs : db.search q lim = db.ftsSearch q lim := by
      unfold Database.search
      rw [if_neg (by omega)]
    refine ⟨hs, ?_⟩
    intro it hit
    rw [hs] at hit
    rcases mem_ftsSearch hit with ⟨r, hr, hite, e, he, hid⟩
    constructor
    · exact ⟨e, he, by rw [hite]; exact hid⟩
    · intro hwf
      have := hwf e he r hr hid.symm
      rw [hite]
      exact this

/-- Witness for the amended C2: "se" (2 bytes) takes the substring path,
"rust" (4 bytes) the full-text path. -/
theorem search_byte_threshold_witness :
    byteLen "se" < 3 ∧ ftsDb.search "se" 10 = ftsDb.likeSearch "se" 10 ∧
    3 ≤ byteLen "rust" ∧ ftsDb.search "rust" 10 = ftsDb.ftsSearch "rust" 10 :=
  ⟨by decide, (search_byte_threshold ftsDb "se" 10).1 (by decide),
    by decide, ((search_byte_threshold ftsDb "rust" 10).2 (by decide)).1⟩

/-- Claim C6: after a successful `delete(id)`, `get(id)` and a second
`delete(id)` both fail with "Item not found", and no search result can
carry the deleted id (row and index entry are gone); deleting a
never-assigned id fails the same way. -/
theorem delete_completeness (db : Database) (id : Int) :
    (∀ db', db.delete_item id = .ok db' →
      db'.get_item id = .error "Item not found" ∧
      db'.delete_item id = .error "Item not found" ∧
      (∀ e ∈ db'.fts, e.1 ≠ id) ∧
      ∀ (q : String) (lim : Nat) (it : Item), it ∈ db'.search q lim → it.id ≠ id) ∧
    ((∀ r ∈ db.rows, r.id ≠ id) → db.delete_item id = .error "Item not found") := by
  constructor
  · intro db' hdel
    unfold Database.delete_item at hdel
    split at hdel
    case isFalse => cases hdel
    case isTrue hany =>
      have hdb' : db' =
          { db with
              rows := db.rows.filter (fun r => !(r.id == id)),
              fts := db.fts.filter (fun e => !(e.1 == id)) } := by
        cases hdel
        rfl
      subst hdb'
      have hnorow : ∀ r ∈ db.rows.filter (fun r => !(r.id == id)), (r.id == id) = false := by
        intro r hrmem
        have := (List.mem_filter.mp hrmem).2
        simpa using this
      refine ⟨?_, ?_, ?_, ?_⟩
      · unfold Database.get_item
        rw [List.find?_eq_none.mpr (fun r hrmem => by simp [hnorow r hrmem])]
      · unfold Database.delete_item
        rw [if_neg ?_]
        intro hc
        rcases List.any_eq_true.mp hc with ⟨r, hrmem, hp⟩
        rw [hnorow r hrmem] at hp
        cases hp
      · intro e hemem
        have := (List.mem_filter.mp hemem).2
        simpa using this
      · intro q lim it hit
        rcases mem_search hit with ⟨r, hrmem, hite⟩
        have hne : (r.id == id) = false := hnorow r hrmem
        rw [hite]
        show r.id ≠ id
        simpa using hne
  · intro hno
    unfold Database.delete_item
    rw [if_neg ?_]
    intro hc
    rcases List.any_eq_true.mp hc with ⟨r, hrmem, hp⟩
    exact hno r hrmem (by simpa using hp)

/-- Witness for C6: deleting the only row of `delDb` makes `get`,
a second `delete`, and search misses concrete. -/
theorem delete_completeness_witness :
    (Database.mk 1 true [] []).get_item 1 = .error "Item not found" ∧
    (Database.mk 1 true [] []).delete_item 1 = .error "Item not found" := by
  have h := (delete_completeness delDb 1).1 (Database.mk 1 true [] []) (by rfl)
  exact ⟨h.1, h.2.1⟩
